import Mathlib

/-!
# Verification of the http-proxy-server specification against its source

Shallow embedding of the proxy's core components, translated from the Rust
sources:

* `src/config.rs` — `Config`, `Config::is_proxy`
* `src/state.rs`  — `State::get_sni`, `State::get_signed_cert`, the
  `cached_result!` leaf cache (the `cached` crate's `SizedCache` of size 50,
  an LRU map, is modelled as a most-recently-used-first association list)
* `src/ca.rs`     — `mk_ca_cert`, `mk_request`, `sign_ca_cert`; X.509
  objects produced through the openssl builder API are modelled as records
  holding exactly the fields the builders set; `BigNum::rand(159,
  MsbOption::MAYBE_ZERO, false)` is modelled as reduction of an arbitrary
  entropy value modulo 2^159 (BN_RAND_TOP_ANY / even allowed, so the full
  range [0, 2^159) is reachable); OpenSSL's `X509::issued` (X509_check_issued)
  is modelled by its documented checks: issuer/subject name agreement, the
  (here empty) authority-key-identifier comparison and the issuer's
  keyCertSign key-usage bit
* `src/codec.rs`  — `RequestExt::encode` / `RequestExt::decode`; the byte
  buffer is modelled as a `List Char` of code points < 256; the black-box
  `httparse` parser and the hyper `Request` builder are modelled by their
  observable behaviour (CRLF line structure, token header names, leading
  whitespace skipped and trailing whitespace trimmed in header values,
  header names lowercased by hyper's `HeaderName`, `uri().path()` dropping
  everything from `?` or `#`, header iteration in insertion order)
* `src/client.rs` — `https_request` (the forwarding client's dial-failure
  branch), with the upstream dial and the inner `http_request` passed as
  parameters
* `src/proxy.rs`  — the `proxy` dispatch: the CONNECT branch with
  `util::host_addr`, and the plain-HTTP branch whose missing-host path
  panics via `expect`
-/

/-! ## Config (src/config.rs) -/

structure Config where
  bind_ip : String
  bind_port : Nat
  proxy_hosts : List String
  sni : String
  root_ca_cert_path : String
  root_ca_key_path : String
  parse : Bool
deriving Repr, DecidableEq

/-- Model of Rust `str::ends_with`: the candidate suffix is compared with
the final segment of the string. -/
def strEndsWith (domain suffixStr : String) : Bool :=
  domain.data.drop (domain.data.length - suffixStr.data.length) == suffixStr.data

/-- `Config::is_proxy` from src/config.rs lines 71-77. -/
def Config.is_proxy (cfg : Config) (domain : String) : Bool :=
  if cfg.proxy_hosts.isEmpty then true
  else cfg.proxy_hosts.any (fun i => strEndsWith domain i)

/-! ## SNI selection (src/state.rs `get_sni`, src/proxy.rs `transform_tunnel`) -/

/-- `State::get_sni` from src/state.rs lines 54-60. -/
def get_sni (configSni host : String) : String :=
  if configSni.isEmpty then host else configSni

/-- The SNI chosen inside `transform_tunnel` (src/proxy.rs line 157):
`let sni = if sni.is_empty() { &host } else { sni };`. -/
def transformTunnelSni (sni host : String) : String :=
  if sni.isEmpty then host else sni

/-! ## Responses and the forwarding client (src/client.rs) -/

structure SimpleResponse where
  status : Nat
  body : String
deriving Repr, DecidableEq

/-- `https_request` from src/client.rs lines 42-62.  The upstream dial
(`get_ssl_connection`) and the success continuation (`http_request`) are
black boxes passed as parameters; the function itself only dispatches on
the dial outcome.  The Rust signature returns
`Result<Response, hyper::Error>`; on dial failure it returns
`Ok(406 "connect https failed")`. -/
def https_request {Conn : Type} (dial : Except String Conn)
    (httpRequest : Conn → Except String SimpleResponse) :
    Except String SimpleResponse :=
  match dial with
  | .ok stream => httpRequest stream
  | .error _ => .ok ⟨406, "connect https failed"⟩

/-! ## The proxy dispatch (src/proxy.rs, src/util.rs) -/

/-- A `hyper::Uri` authority as toString/host expose it. -/
structure ModelAuthority where
  host : String
  port : Option Nat
deriving Repr, DecidableEq

def ModelAuthority.render (a : ModelAuthority) : String :=
  match a.port with
  | some p => a.host ++ ":" ++ toString p
  | none => a.host

/-- Model of `Option::zip`. -/
def optZip {α β : Type} : Option α → Option β → Option (α × β)
  | some a, some b => some (a, b)
  | _, _ => none

/-- `host_addr` from src/util.rs lines 55-59:
`uri.authority().map(toString).zip(uri.host().map(toString))`.
In hyper, `uri.host()` is exactly the host part of the authority, so both
options are derived from the same authority option. -/
def host_addr (auth : Option ModelAuthority) : Option (String × String) :=
  optZip (auth.map ModelAuthority.render) (auth.map ModelAuthority.host)

inductive ConnectOutcome
  | tunnelSpawned (addr host : String) (controlResponse : SimpleResponse)
  | noTunnel (controlResponse : SimpleResponse)
deriving Repr, DecidableEq

/-- The CONNECT branch of `proxy` (src/proxy.rs lines 72-113): when
`host_addr` yields an address a tunnel task is spawned and the synthetic
`200` with empty body goes back on the control channel; otherwise no task
is spawned and a `400` with body "CONNECT must be to a socket address" is
returned. -/
def proxyConnect (auth : Option ModelAuthority) : ConnectOutcome :=
  match host_addr auth with
  | some (addr, host) => .tunnelSpawned addr host ⟨200, ""⟩
  | none => .noTunnel ⟨400, "CONNECT must be to a socket address"⟩

inductive PlainHttpOutcome
  | panicked (msg : String)
  | forward (addr : String)
  | response (resp : SimpleResponse)
deriving Repr, DecidableEq

/-- The non-CONNECT branch of `proxy` (src/proxy.rs lines 114-134):
`let host = req.uri().host().expect("uri has no host");` panics when the
URI has no host, and otherwise forwards to `host:port` with the port
defaulting to 80 (`req.uri().port_u16().unwrap_or(80)`).  The `.response`
constructor exists only to state what the specification expects; the code
never produces it. -/
def proxyPlainHttp (uriHost : Option String) (uriPort : Option Nat) :
    PlainHttpOutcome :=
  match uriHost with
  | none => .panicked "uri has no host"
  | some h => .forward (h ++ ":" ++ toString (uriPort.getD 80))

/-! ## X.509 model (src/ca.rs) -/

abbrev X509Name := List (String × String)

structure RsaKey where
  bits : Nat
  keyId : Nat
deriving Repr, DecidableEq

/-- `Rsa::generate(2048)` keyed by the entropy that fed it. -/
def rsaGenerate (entropy : Nat) : RsaKey := ⟨2048, entropy⟩

structure SigInfo where
  signerKeyId : Nat
  digest : String
deriving Repr, DecidableEq

inductive X509Ext
  | basicConstraints (critical ca : Bool)
  | keyUsage (critical keyCertSign crlSign digitalSignature nonRepudiation keyEncipherment : Bool)
  | subjectKeyIdentifier
  | authorityKeyIdentifier (keyid issuer : Bool)
  | subjectAltNameDNS (dns : String)
deriving Repr, DecidableEq

structure X509Cert where
  version : Nat
  serial : Nat
  subject : X509Name
  issuer : X509Name
  pubKeyId : Nat
  notBeforeDays : Nat
  notAfterDays : Nat
  extensions : List X509Ext
  sig : SigInfo
deriving Repr, DecidableEq

structure CA where
  cert : X509Cert
  key : RsaKey
deriving Repr, DecidableEq

/-- `BigNum::rand(159, MsbOption::MAYBE_ZERO, false)`: a uniformly random
value whose top bits may all be zero and which need not be odd, i.e. an
arbitrary element of [0, 2^159), modelled as the entropy reduced mod 2^159. -/
def randSerial (entropy : Nat) : Nat := entropy % 2 ^ 159

/-- The subject/issuer name built in `mk_ca_cert` (src/ca.rs lines 74-80). -/
def caName : X509Name :=
  [("C", "CN"), ("ST", "GuangDong"), ("O", "thlstsul"), ("CN", "thlstsul.github.io")]

/-- The CSR subject name built in `mk_request` (src/ca.rs lines 119-125). -/
def leafName (domain : String) : X509Name :=
  [("C", "CN"), ("ST", "GuangDong"), ("O", "thlstsul"), ("CN", domain)]

/-- `mk_ca_cert` from src/ca.rs lines 71-113, with the two random draws
(RSA keypair, serial) passed in as entropy. -/
def mk_ca_cert (keyEntropy serialEntropy : Nat) : CA :=
  let key := rsaGenerate keyEntropy
  { cert :=
      { version := 2
        serial := randSerial serialEntropy
        subject := caName
        issuer := caName
        pubKeyId := key.keyId
        notBeforeDays := 0
        notAfterDays := 365 * 20
        extensions :=
          [.basicConstraints true true,
           .keyUsage true true true false false false,
           .subjectKeyIdentifier]
        sig := ⟨key.keyId, "sha256"⟩ }
    key := key }

structure X509Req where
  subject : X509Name
  pubKeyId : Nat
  sig : SigInfo
deriving Repr, DecidableEq

/-- `mk_request` from src/ca.rs lines 115-132. -/
def mk_request (key : RsaKey) (domain : String) : X509Req :=
  ⟨leafName domain, key.keyId, ⟨key.keyId, "sha256"⟩⟩

/-- `sign_ca_cert` from src/ca.rs lines 134-185, with the two random draws
passed in as entropy.  Subject comes from the CSR, issuer from the root's
subject, and the certificate is signed with the root's private key. -/
def sign_ca_cert (ca : CA) (domain : String) (keyEntropy serialEntropy : Nat) : CA :=
  let key := rsaGenerate keyEntropy
  let req := mk_request key domain
  { cert :=
      { version := 2
        serial := randSerial serialEntropy
        subject := req.subject
        issuer := ca.cert.subject
        pubKeyId := key.keyId
        notBeforeDays := 0
        notAfterDays := 365
        extensions :=
          [.basicConstraints false false,
           .keyUsage true false false true true true,
           .subjectKeyIdentifier,
           .authorityKeyIdentifier false false,
           .subjectAltNameDNS domain]
        sig := ⟨ca.key.keyId, "sha256"⟩ }
    key := key }

/-- `CA::sign` (src/ca.rs lines 57-60) delegates to `sign_ca_cert`. -/
def CA.sign (ca : CA) (domain : String) (keyEntropy serialEntropy : Nat) : CA :=
  sign_ca_cert ca domain keyEntropy serialEntropy

def extKeyCertSign : X509Ext → Option Bool
  | .keyUsage _ kcs _ _ _ _ => some kcs
  | _ => none

/-- X509_check_issued key-usage leg: if the candidate issuer carries a
keyUsage extension, its keyCertSign bit must be set. -/
def hasKeyCertSign (c : X509Cert) : Bool :=
  match c.extensions.findSome? extKeyCertSign with
  | some b => b
  | none => true

/-- The leaf's AuthorityKeyIdentifier is built with `keyid(false)` and
`issuer(false)` (src/ca.rs lines 171-174), so it is empty and the
X509_check_issued comparison of its fields passes vacuously; a non-empty
AKID is outside the program and not modelled. -/
def akidEmptyOk : X509Ext → Bool
  | .authorityKeyIdentifier keyid issuer => !keyid && !issuer
  | _ => true

/-- Model of OpenSSL `X509::issued` (X509_check_issued): issuer subject
must equal the candidate's issuer name, the candidate's AKID fields (empty
here) must be consistent, and the issuer must be allowed to sign. -/
def issued (issuerCert leafCert : X509Cert) : Bool :=
  issuerCert.subject == leafCert.issuer
    && leafCert.extensions.all akidEmptyOk
    && hasKeyCertSign issuerCert

def cnOf (n : X509Name) : Option String :=
  (n.find? (fun p => p.1 == "CN")).map Prod.snd

def sanDNSOf (c : X509Cert) : List String :=
  c.extensions.filterMap (fun e =>
    match e with
    | .subjectAltNameDNS d => some d
    | _ => none)

/-! ## Leaf cache (src/state.rs `cached_result!` / `get_signed_cert`)

The `cached` crate's `SizedCache::with_size(50)` is an LRU map; it is
modelled as an association list ordered most-recently-used first. -/

abbrev LeafCache := List (String × CA)

def cacheCapacity : Nat := 50

/-- `SizedCache::cache_get` (plus the `cloned()` of the wrapper): a hit
returns a copy of the stored value and promotes the entry to
most-recently-used. -/
def cache_get (host : String) (c : LeafCache) : Option CA × LeafCache :=
  match c.find? (fun p => p.1 == host) with
  | some p => (some p.2, (host, p.2) :: c.filter (fun q => q.1 != host))
  | none => (none, c)

/-- `SizedCache::cache_set`: an existing key is overwritten and promoted;
a new key is inserted most-recently-used, evicting the least-recently-used
entry when the cache is at capacity. -/
def cache_set (host : String) (ca : CA) (c : LeafCache) : LeafCache :=
  if c.any (fun p => p.1 == host) then (host, ca) :: c.filter (fun q => q.1 != host)
  else if c.length < cacheCapacity then (host, ca) :: c
  else (host, ca) :: c.dropLast

/-- The `cached_result!` wrapper `get_cached_cert` of src/state.rs lines
11-17: lock the cache, look the host up, clone on hit. -/
def get_cached_cert (host : String) (c : LeafCache) : Option CA × LeafCache :=
  cache_get host c

/-- `State::get_signed_cert` from src/state.rs lines 62-76: return the
cached leaf if present, otherwise mint one with `root_ca.sign` and insert
it.  The two random draws of the mint are passed in as entropy. -/
def get_signed_cert (root : CA) (host : String) (keyEntropy serialEntropy : Nat)
    (c : LeafCache) : CA × LeafCache :=
  match get_cached_cert host c with
  | (some ca, c1) => (ca, c1)
  | (none, c1) =>
    let ca := sign_ca_cert root host keyEntropy serialEntropy
    (ca, cache_set host ca c1)

/-- A sequence of `get_signed_cert` calls, each with its own entropy. -/
def runSignedCerts (root : CA) (calls : List (String × Nat × Nat)) (c : LeafCache) :
    LeafCache :=
  calls.foldl (fun acc hks => (get_signed_cert root hks.1 hks.2.1 hks.2.2 acc).2) c

/-! ## HTTP wire codec (src/codec.rs)

The buffer is a `List Char` whose elements stand for bytes.  `httparse`
and the hyper request builder are black boxes (the spec treats the
HTTP/1.1 codec libraries as external); they are modelled by their
observable behaviour on the inputs the codec feeds them:

* a request head is request-line CRLF, header lines CRLF, blank CRLF;
* the request line is `method SP request-target SP HTTP/1.x`;
* header names are tokens; header values have leading whitespace skipped
  and trailing whitespace trimmed;
* hyper's `HeaderName` lowercases names; `HeaderMap` is modelled as
  preserving insertion order; `HeaderMap::get` returns the first value;
* `uri().path()` of an origin-form target drops everything from `?`/`#`;
* `atoi::<usize>` reads a leading run of ASCII digits and fails when the
  value does not start with a digit.

The `header_len = count of \n` computation of `encode` only sizes the
httparse header array; a complete head always contains more `\n` bytes
than headers (request line and blank line contribute two more), so the
bound never bites and is not modelled. -/

abbrev Buf := List Char

def isWSChar (c : Char) : Bool := c == ' ' || c == '\t'

def tokenChar (c : Char) : Bool :=
  c.isAlphanum
    || ['-', '_', '.', '!', '#', '$', '%', '&', '*', '+', '^', '|', '~'].contains c

def isToken (l : Buf) : Bool := !l.isEmpty && l.all tokenChar

/-- Split a buffer at the first CRLF. -/
def splitLine : Buf → Option (Buf × Buf)
  | [] => none
  | c :: rest =>
    if c = '\r' ∧ rest.head? = some '\n' then some ([], rest.tail)
    else (splitLine rest).map (fun p => (c :: p.1, p.2))

/-- Split a buffer at the first occurrence of a separator character. -/
def splitAtChar (sep : Char) : Buf → Option (Buf × Buf)
  | [] => none
  | c :: rest =>
    if c = sep then some ([], rest)
    else (splitAtChar sep rest).map (fun p => (c :: p.1, p.2))

def trimTrailingWS (l : Buf) : Buf :=
  (l.reverse.dropWhile isWSChar).reverse

/-- One `name: value` header line as httparse reports it. -/
def parseHeaderLine (line : Buf) : Option (String × String) :=
  (splitAtChar ':' line).bind (fun nr =>
    if isToken nr.1 then
      some (String.mk nr.1, String.mk (trimTrailingWS (nr.2.dropWhile isWSChar)))
    else none)

/-- The header block: lines up to the blank line, with the bytes after the
blank line returned unconsumed. -/
def parseHeaderLines : Nat → Buf → Option (List (String × String) × Buf)
  | 0, _ => none
  | fuel + 1, buf =>
    (splitLine buf).bind (fun lr =>
      if lr.1.isEmpty then some ([], lr.2)
      else
        (parseHeaderLine lr.1).bind (fun nv =>
          (parseHeaderLines fuel lr.2).map (fun hr => (nv :: hr.1, hr.2))))

/-- `method SP request-target SP HTTP/1.x` as httparse reports it. -/
def parseRequestLine (line : Buf) : Option (String × String) :=
  (splitAtChar ' ' line).bind (fun mr =>
    (splitAtChar ' ' mr.2).bind (fun uv =>
      if isToken mr.1 && !uv.1.isEmpty
          && (uv.2 == "HTTP/1.1".data || uv.2 == "HTTP/1.0".data) then
        some (String.mk mr.1, String.mk uv.1)
      else none))

/-- A complete request head: `httparse::Request::parse` returning
`Status::Complete` with the parsed pieces and the unconsumed bytes. -/
def parseHead (buf : Buf) : Option (String × String × List (String × String) × Buf) :=
  (splitLine buf).bind (fun lr =>
    (parseRequestLine lr.1).bind (fun mu =>
      (parseHeaderLines (buf.length + 1) lr.2).map (fun hr =>
        (mu.1, mu.2, hr.1, hr.2))))

/-- `atoi::<usize>` digit-run accumulation. -/
def atoiDigits : Buf → Nat → Nat
  | [], acc => acc
  | c :: t, acc =>
    if c.isDigit then atoiDigits t (acc * 10 + (c.toNat - 48)) else acc

/-- `atoi::<usize>`: fails unless the value starts with an ASCII digit,
then reads the leading digit run. -/
def atoiChars : Buf → Option Nat
  | [] => none
  | c :: t => if c.isDigit then some (atoiDigits (c :: t) 0) else none

/-- hyper's `HeaderName` lowercasing. -/
def lowerStr (s : String) : String := String.mk (s.data.map Char.toLower)

/-- `HeaderMap::get(CONTENT_LENGTH)`: first header named content-length. -/
def findContentLength (hs : List (String × String)) : Option String :=
  (hs.find? (fun p => p.1 == "content-length")).map Prod.snd

/-- The `hyper::Request<Vec<u8>>` the codec builds: method, the URI it
was given, the (lowercased, insertion-ordered) headers, the body bytes. -/
structure HttpRequest where
  method : String
  uri : String
  headers : List (String × String)
  body : Buf
deriving Repr, DecidableEq

/-- `RequestExt::encode` from src/codec.rs lines 13-41: parse a complete
head, build the request (hyper lowercases the header names), read
`Content-Length` with `atoi(..).unwrap_or(0)`, and drain head plus body
on success.  Returns the request together with what is left in the
buffer. -/
def encode (buf : Buf) : Option (HttpRequest × Buf) :=
  (parseHead buf).bind (fun t =>
    let m := t.1
    let u := t.2.1
    let hs2 := t.2.2.1.map (fun p => (lowerStr p.1, p.2))
    let rest := t.2.2.2
    let cl :=
      match findContentLength hs2 with
      | some v => (atoiChars v.data).getD 0
      | none => 0
    if cl = 0 then some (⟨m, u, hs2, []⟩, rest)
    else if cl ≤ rest.length then some (⟨m, u, hs2, rest.take cl⟩, rest.drop cl)
    else none)

/-- Everything after the `://` of an absolute-form target. -/
def afterSchemeSlashes : Buf → Buf
  | [] => []
  | ':' :: '/' :: '/' :: rest => rest
  | _ :: rest => afterSchemeSlashes rest

/-- `uri.path()` of a non-origin-form target (hyper): the part of an
absolute-form URI from the slash after the authority, query and fragment
dropped, defaulting to "/". -/
def absoluteFormPath (u : String) : String :=
  let rest := afterSchemeSlashes u.data
  let path := rest.dropWhile (fun c => c != '/')
  if path.isEmpty then "/"
  else String.mk (path.takeWhile (fun c => c != '?' && c != '#'))

def startsSlash (l : Buf) : Bool := l.head? == some '/'

/-- hyper `uri.path()`: origin-form targets keep everything up to the
query or fragment; absolute-form targets keep the path after the
authority. -/
def pathOf (u : String) : String :=
  if startsSlash u.data then
    String.mk (u.data.takeWhile (fun c => c != '?' && c != '#'))
  else absoluteFormPath u

def emitHeader (p : String × String) : Buf :=
  p.1.data ++ ':' :: ' ' :: p.2.data ++ '\r' :: '\n' :: []

def emitHeaders : List (String × String) → Buf
  | [] => []
  | p :: t => emitHeader p ++ emitHeaders t

/-- `RequestExt::decode` from src/codec.rs lines 43-60: method, space,
`uri().path()`, ` HTTP/1.1` CRLF, the header lines, a blank line, the
body. -/
def decode (r : HttpRequest) : Buf :=
  r.method.data ++ " ".data ++ (pathOf r.uri).data ++ " HTTP/1.1\r\n".data
    ++ emitHeaders r.headers ++ "\r\n".data ++ r.body

/-! ### The canonical domain on which encode/decode round-trip -/

def visibleChar (c : Char) : Bool := 33 ≤ c.toNat && c.toNat ≤ 126

def valueChar (c : Char) : Bool := 32 ≤ c.toNat && c.toNat ≤ 126

def headNotWS : Buf → Bool
  | [] => true
  | c :: _ => !isWSChar c

/-- One header in the shape the codec reproduces byte-for-byte: lowercase
token name, printable value without leading or trailing whitespace. -/
def canonicalHeader (p : String × String) : Bool :=
  isToken p.1.data && p.1.data.all (fun c => c.toLower == c)
    && p.2.data.all valueChar && headNotWS p.2.data && headNotWS p.2.data.reverse

/-- The `Content-Length` value `encode` acts on (0 when absent or when
`atoi` fails). -/
def contentLenOf (hs : List (String × String)) : Nat :=
  match findContentLength hs with
  | some v => (atoiChars v.data).getD 0
  | none => 0

/-- The request head is in the canonical shape: token method, origin-form
target without query/fragment, canonical headers. -/
def isHeadCanonical (r : HttpRequest) : Bool :=
  isToken r.method.data && startsSlash r.uri.data
    && r.uri.data.all (fun c => visibleChar c && c != '?' && c != '#')
    && r.headers.all canonicalHeader

/-- The canonical serializations: a canonical head whose `Content-Length`
agrees with the body length (and fits `usize`, where the model's `Nat`
arithmetic and Rust's agree). -/
def isCanonical (r : HttpRequest) : Bool :=
  isHeadCanonical r && contentLenOf r.headers == r.body.length
    && r.body.length < 2 ^ 64

/-! ## Helper lemmas -/

theorem strMk_data (s : String) : String.mk s.data = s := by cases s; rfl

theorem strEndsWith_iff (h s : String) :
    strEndsWith h s = true ↔ s.data <:+ h.data := by
  rw [strEndsWith, beq_iff_eq, List.suffix_iff_eq_drop]
  exact eq_comm

/-! ## Claim theorems: configuration and dispatch -/

/-- C6: for a host `H` and a `Config` with proxied-hosts list `L`,
`is_proxy H` is true when `L` is empty, and otherwise exactly when some
element of `L` is a suffix of `H`. -/
theorem C6_is_proxy (cfg : Config) (H : String) :
    (cfg.proxy_hosts = [] → cfg.is_proxy H = true)
    ∧ (cfg.proxy_hosts ≠ [] →
        (cfg.is_proxy H = true ↔ ∃ s ∈ cfg.proxy_hosts, s.data <:+ H.data)) := by
  constructor
  · intro h
    simp [Config.is_proxy, h]
  · intro h
    have hne : cfg.proxy_hosts.isEmpty = false := by
      simpa [List.isEmpty_iff] using h
    rw [Config.is_proxy, hne, if_neg Bool.false_ne_true]
    simp only [List.any_eq_true]
    constructor
    · rintro ⟨s, hs, hsuf⟩
      exact ⟨s, hs, (strEndsWith_iff H s).mp hsuf⟩
    · rintro ⟨s, hs, hsuf⟩
      exact ⟨s, hs, (strEndsWith_iff H s).mpr hsuf⟩

/-- C6 witness: with proxied list `["github.com"]`, the host
`alive.github.com` is proxied (the repository's own `should_proxy` test). -/
theorem C6_is_proxy_witness :
    Config.is_proxy
      ⟨"127.0.0.1", 31181, ["github.com"], "", "proxy.ca.cert.crt", "proxy.ca.key.pem", false⟩
      "alive.github.com" = true :=
  ((C6_is_proxy _ "alive.github.com").2 (by decide)).mpr
    ⟨"github.com", by simp, by decide⟩

/-- C7: a non-empty configured SNI overrides the host in `get_sni`, an
empty one leaves the host; the selection inside `transform_tunnel` (the
SNI dialled for the origin of an intercepted tunnel) is the same
function of the configured SNI and the CONNECT host. -/
theorem C7_get_sni (cfg : Config) (H : String) :
    (cfg.sni ≠ "" → get_sni cfg.sni H = cfg.sni)
    ∧ (cfg.sni = "" → get_sni cfg.sni H = H)
    ∧ transformTunnelSni cfg.sni H = get_sni cfg.sni H := by
  refine ⟨fun h => ?_, fun h => ?_, rfl⟩
  · have hne : cfg.sni.isEmpty = false :=
      Bool.eq_false_iff.mpr (fun he => h ((String.isEmpty_iff _).mp he))
    rw [get_sni, hne, if_neg Bool.false_ne_true]
  · rw [h]
    rfl

/-- C7 witness: concrete override and empty-override cases. -/
theorem C7_get_sni_witness :
    get_sni "front.test" "inspect.test" = "front.test"
      ∧ get_sni "" "inspect.test" = "inspect.test" := by
  have h1 := (C7_get_sni
    ⟨"127.0.0.1", 31181, [], "front.test", "c", "k", false⟩ "inspect.test").1 (by decide)
  have h2 := (C7_get_sni
    ⟨"127.0.0.1", 31181, [], "", "c", "k", false⟩ "inspect.test").2.1 rfl
  exact ⟨h1, h2⟩

/-- C4 counterexample: on a failed upstream dial the forwarding client
answers 406 with body "connect https failed", not "connect http failed"
as claimed. -/
theorem C4_counterexample :
    https_request (Except.error "connection refused")
        (fun _ : Unit => Except.ok ⟨200, ""⟩)
      = Except.ok ⟨406, "connect https failed"⟩
    ∧ "connect https failed" ≠ "connect http failed" :=
  ⟨rfl, by decide⟩

/-- C4 amended: when the upstream dial fails, `https_request` returns a
406 Not Acceptable response with body "connect https failed" and never
surfaces an error to its caller, whatever the inner request handler would
have done. -/
theorem C4_https_request_dial_failure (Conn : Type) (e : String)
    (handler : Conn → Except String SimpleResponse) :
    https_request (Except.error e) handler = Except.ok ⟨406, "connect https failed"⟩ :=
  rfl

/-- C5 counterexample: a plain request whose URI has no host makes the
handler panic ("uri has no host"); no 406 response with body "HTTP must
be to socket address" is produced. -/
theorem C5_counterexample :
    proxyPlainHttp none none = .panicked "uri has no host"
    ∧ proxyPlainHttp none none ≠ .response ⟨406, "HTTP must be to socket address"⟩ :=
  ⟨rfl, by decide⟩

/-- C5 amended: on a URI without a parseable host the plain-HTTP branch
panics via `expect("uri has no host")` (aborting that connection's task)
instead of returning any response; when the host is present the port
defaults to 80 when omitted. -/
theorem C5_plain_http (h : String) (p : Nat) :
    proxyPlainHttp none (some p) = .panicked "uri has no host"
    ∧ proxyPlainHttp none none = .panicked "uri has no host"
    ∧ (∀ r : SimpleResponse, proxyPlainHttp none none ≠ .response r)
    ∧ proxyPlainHttp (some h) none = .forward (h ++ ":" ++ "80")
    ∧ proxyPlainHttp (some h) (some p) = .forward (h ++ ":" ++ toString p) := by
  refine ⟨rfl, rfl, fun r => ?_, rfl, rfl⟩
  intro hc
  cases hc

/-- C8: a CONNECT request whose URI has no authority gets 400 Bad Request
on the control channel (not the synthetic 200) and spawns no tunnel
task. -/
theorem C8_connect_no_authority :
    proxyConnect none = .noTunnel ⟨400, "CONNECT must be to a socket address"⟩
    ∧ (∀ a h s, proxyConnect none ≠ .tunnelSpawned a h s)
    ∧ (proxyConnect none ≠ .noTunnel ⟨200, ""⟩) := by
  refine ⟨rfl, fun a h s hc => ?_, by decide⟩
  cases hc

/-- C9 counterexample: with all-zero entropy the serial of a leaf is 0,
so issued serials are not strictly positive. -/
theorem C9_counterexample :
    (sign_ca_cert (mk_ca_cert 0 0) "example.com" 1 0).cert.serial = 0
    ∧ ¬ (0 < (sign_ca_cert (mk_ca_cert 0 0) "example.com" 1 0).cert.serial) :=
  ⟨rfl, by decide⟩

/-- C9 amended: the serial of every certificate the program issues (the
root of `mk_ca_cert` and every leaf of `sign_ca_cert`) is a random value
below 2^159; it may be zero, since the serial is drawn with
`MsbOption::MAYBE_ZERO`. -/
theorem C9_serial_range (ca : CA) (domain : String) (ke se kh sh : Nat) :
    (mk_ca_cert ke se).cert.serial < 2 ^ 159
    ∧ (sign_ca_cert ca domain kh sh).cert.serial < 2 ^ 159 :=
  ⟨Nat.mod_lt _ (Nat.pos_pow_of_pos 159 (by norm_num)),
   Nat.mod_lt _ (Nat.pos_pow_of_pos 159 (by norm_num))⟩

/-! ## Cache lemmas -/

theorem find_none_of_not_mem (host : String) (c : LeafCache)
    (h : host ∉ c.map Prod.fst) :
    c.find? (fun p => p.1 == host) = none := by
  refine List.find?_eq_none.mpr (fun p hp => ?_)
  simp only [beq_iff_eq]
  intro he
  exact h (he ▸ List.mem_map_of_mem Prod.fst hp)

theorem any_false_of_not_mem (host : String) (c : LeafCache)
    (h : host ∉ c.map Prod.fst) :
    c.any (fun p => p.1 == host) = false := by
  rw [Bool.eq_false_iff]
  intro ha
  obtain ⟨p, hp, hpe⟩ := List.any_eq_true.mp ha
  exact h ((beq_iff_eq.mp hpe) ▸ List.mem_map_of_mem Prod.fst hp)

theorem get_signed_cert_miss (root : CA) (host : String) (k s : Nat) (c : LeafCache)
    (hmem : host ∉ c.map Prod.fst) (hlen : c.length < cacheCapacity) :
    get_signed_cert root host k s c
      = (sign_ca_cert root host k s, (host, sign_ca_cert root host k s) :: c) := by
  have h1 := find_none_of_not_mem host c hmem
  have h2 := any_false_of_not_mem host c hmem
  simp [get_signed_cert, get_cached_cert, cache_get, cache_set, h1, h2, hlen]

theorem cache_get_size (host : String) (c : LeafCache) :
    (cache_get host c).2.length ≤ c.length := by
  rw [cache_get]
  cases hf : c.find? (fun p => p.1 == host) with
  | none => exact Nat.le_refl _
  | some p =>
    simp only [List.length_cons]
    refine Nat.succ_le_of_lt (List.length_filter_lt_length_iff_exists.mpr ⟨p, List.mem_of_find?_eq_some hf, ?_⟩)
    have := List.find?_some hf
    simp only [bne, this, Bool.not_true, Bool.false_eq_true, not_false_eq_true]

theorem cache_set_size (host : String) (ca : CA) (c : LeafCache)
    (h : c.length ≤ cacheCapacity) :
    (cache_set host ca c).length ≤ cacheCapacity := by
  rw [cache_set]
  by_cases ha : c.any (fun p => p.1 == host) = true
  · rw [if_pos ha]
    obtain ⟨p, hp, hpe⟩ := List.any_eq_true.mp ha
    simp only [List.length_cons]
    refine Nat.le_trans (Nat.succ_le_of_lt (List.length_filter_lt_length_iff_exists.mpr ⟨p, hp, ?_⟩)) h
    simp only [bne, hpe, Bool.not_true, Bool.false_eq_true, not_false_eq_true]
  · rw [if_neg ha]
    by_cases hl : c.length < cacheCapacity
    · rw [if_pos hl]
      exact Nat.succ_le_of_lt hl
    · rw [if_neg hl]
      simp only [List.length_cons, List.length_dropLast]
      unfold cacheCapacity at h hl ⊢
      omega

theorem get_signed_cert_size (root : CA) (host : String) (k s : Nat) (c : LeafCache)
    (h : c.length ≤ cacheCapacity) :
    (get_signed_cert root host k s c).2.length ≤ cacheCapacity := by
  rw [get_signed_cert, get_cached_cert]
  have hget := cache_get_size host c
  cases hc : cache_get host c with
  | mk o c1 =>
    cases o with
    | some ca =>
      simpa [hc] using Nat.le_trans (by simpa [hc] using hget) h
    | none =>
      simp only
      refine cache_set_size host _ c1 ?_
      exact Nat.le_trans (by simpa [hc] using hget) h

theorem runSignedCerts_nil (root : CA) (c : LeafCache) :
    runSignedCerts root [] c = c := rfl

theorem runSignedCerts_cons (root : CA) (x : String × Nat × Nat)
    (t : List (String × Nat × Nat)) (c : LeafCache) :
    runSignedCerts root (x :: t) c
      = runSignedCerts root t (get_signed_cert root x.1 x.2.1 x.2.2 c).2 := rfl

theorem runSignedCerts_size (root : CA) (calls : List (String × Nat × Nat)) :
    ∀ c : LeafCache, c.length ≤ cacheCapacity →
      (runSignedCerts root calls c).length ≤ cacheCapacity := by
  induction calls with
  | nil => intro c h; simpa [runSignedCerts_nil] using h
  | cons x t ih =>
    intro c h
    rw [runSignedCerts_cons]
    exact ih _ (get_signed_cert_size root x.1 x.2.1 x.2.2 c h)

theorem runSignedCerts_distinct (root : CA) (calls : List (String × Nat × Nat)) :
    ∀ c : LeafCache, (calls.map Prod.fst).Nodup →
      (∀ h ∈ calls.map Prod.fst, h ∉ c.map Prod.fst) →
      c.length + calls.length ≤ cacheCapacity →
      (runSignedCerts root calls c).length = c.length + calls.length := by
  induction calls with
  | nil => intro c _ _ _; simp [runSignedCerts_nil]
  | cons x t ih =>
    intro c hnd hfresh hlen
    simp only [List.map_cons, List.nodup_cons] at hnd
    have hx : x.1 ∉ c.map Prod.fst := hfresh x.1 (by simp)
    have hclen : c.length < cacheCapacity := by
      simp only [List.length_cons] at hlen; omega
    rw [runSignedCerts_cons, get_signed_cert_miss root x.1 x.2.1 x.2.2 c hx hclen]
    have hstep := ih ((x.1, sign_ca_cert root x.1 x.2.1 x.2.2) :: c) hnd.2 ?_ ?_
    · rw [hstep]
      simp only [List.length_cons]
      omega
    · intro p hp
      simp only [List.map_cons, List.mem_cons, not_or]
      constructor
      · intro he
        exact hnd.1 (he ▸ hp)
      · exact hfresh p (by simp [hp])
    · simp only [List.length_cons]
      simp only [List.length_cons] at hlen
      omega

theorem get_signed_cert_head (root : CA) (host : String) (k s : Nat) (c : LeafCache) :
    ∃ t, (get_signed_cert root host k s c).2
      = (host, (get_signed_cert root host k s c).1) :: t := by
  cases hf : c.find? (fun p => p.1 == host) with
  | some p =>
    refine ⟨c.filter (fun q => q.1 != host), ?_⟩
    simp [get_signed_cert, get_cached_cert, cache_get, hf]
  | none =>
    have hmem : host ∉ c.map Prod.fst := by
      intro hm
      obtain ⟨p, hp, hpe⟩ := List.mem_map.mp hm
      have h0 := List.find?_eq_none.mp hf p hp
      simp [hpe] at h0
    have h2 := any_false_of_not_mem host c hmem
    by_cases hl : c.length < cacheCapacity
    · refine ⟨c, ?_⟩
      simp [get_signed_cert, get_cached_cert, cache_get, cache_set, hf, h2, hl]
    · refine ⟨c.dropLast, ?_⟩
      simp [get_signed_cert, get_cached_cert, cache_get, cache_set, hf, h2, hl]

theorem get_signed_cert_at_head (root : CA) (host : String) (k s : Nat)
    (ca : CA) (t : LeafCache) :
    (get_signed_cert root host k s ((host, ca) :: t)).1 = ca := by
  have hf : ((host, ca) :: t).find? (fun p => p.1 == host) = some (host, ca) :=
    List.find?_cons_of_pos _ (by simp)
  simp [get_signed_cert, get_cached_cert, cache_get, hf]

/-! ## Claim theorems: leaf cache -/

/-- C2: starting from the empty cache, a run of `get_signed_cert` over at
most 50 distinct hosts leaves exactly one cache entry per host; from any
cache within capacity every prefix of any call sequence keeps the size at
most 50; and a repeated call for the same host returns a certificate with
the same serial number as the first (the second call serves the cached
clone instead of minting anew). -/
theorem C2_leaf_cache (root : CA) (calls : List (String × Nat × Nat))
    (c : LeafCache) (host : String) (k1 s1 k2 s2 : Nat) :
    ((calls.map Prod.fst).Nodup → calls.length ≤ 50 →
        (runSignedCerts root calls []).length = calls.length)
    ∧ (c.length ≤ 50 →
        ∀ n, (runSignedCerts root (calls.take n) c).length ≤ 50)
    ∧ (get_signed_cert root host k2 s2
          (get_signed_cert root host k1 s1 c).2).1.cert.serial
        = (get_signed_cert root host k1 s1 c).1.cert.serial := by
  refine ⟨fun hnd hlen => ?_, fun hc n => ?_, ?_⟩
  · have := runSignedCerts_distinct root calls [] hnd (by simp) (by simpa [cacheCapacity] using hlen)
    simpa using this
  · exact runSignedCerts_size root (calls.take n) c (by simpa [cacheCapacity] using hc)
  · obtain ⟨t, ht⟩ := get_signed_cert_head root host k1 s1 c
    rw [ht, get_signed_cert_at_head]

/-- C2 witness: three distinct hosts from the empty cache give three
entries; every prefix stays within capacity; a repeated call for
`a.test` returns the cached serial. -/
theorem C2_leaf_cache_witness :
    (runSignedCerts (mk_ca_cert 0 0)
        [("a.test", 1, 1), ("b.test", 2, 2), ("c.test", 3, 3)] []).length = 3
    ∧ (runSignedCerts (mk_ca_cert 0 0)
        ([("a.test", 1, 1), ("b.test", 2, 2), ("c.test", 3, 3)].take 2) []).length ≤ 50
    ∧ (get_signed_cert (mk_ca_cert 0 0) "a.test" 9 9
          (get_signed_cert (mk_ca_cert 0 0) "a.test" 1 1 []).2).1.cert.serial
        = (get_signed_cert (mk_ca_cert 0 0) "a.test" 1 1 []).1.cert.serial := by
  have H := C2_leaf_cache (mk_ca_cert 0 0)
    [("a.test", 1, 1), ("b.test", 2, 2), ("c.test", 3, 3)] [] "a.test" 1 1 9 9
  exact ⟨H.1 (by decide) (by decide), H.2.1 (by decide) 2, H.2.2⟩

/-! ## Claim theorems: certificate issuance -/

/-- The post-condition of minting: issuer chained to the root, subject CN
and SAN DNS equal to the host, and OpenSSL's issued-by check passing. -/
def GoodLeaf (root : CA) (host : String) (leaf : CA) : Prop :=
  leaf.cert.issuer = root.cert.subject
  ∧ cnOf leaf.cert.subject = some host
  ∧ sanDNSOf leaf.cert = [host]
  ∧ issued root.cert leaf.cert = true

/-- Every cache entry was produced by a mint for its key. -/
def CacheWellFormed (root : CA) (c : LeafCache) : Prop :=
  ∀ p ∈ c, GoodLeaf root p.1 p.2

theorem GoodLeaf_sign (ke se k s : Nat) (host : String) :
    GoodLeaf (mk_ca_cert ke se) host
      (sign_ca_cert (mk_ca_cert ke se) host k s) :=
  ⟨rfl, rfl, rfl, rfl⟩

/-- C1: a `get_signed_cert` call on a well-formed cache (one whose
entries were themselves minted, as every reachable cache state is)
returns a leaf whose issuer is the root's subject, whose subject CN and
SubjectAlternativeName DNS entry are the requested host, and which passes
the root's `issued` verification — and leaves the cache well-formed. -/
theorem C1_get_signed_cert (ke se k s : Nat) (host : String) (c : LeafCache)
    (hwf : CacheWellFormed (mk_ca_cert ke se) c) :
    GoodLeaf (mk_ca_cert ke se) host
        (get_signed_cert (mk_ca_cert ke se) host k s c).1
    ∧ CacheWellFormed (mk_ca_cert ke se)
        (get_signed_cert (mk_ca_cert ke se) host k s c).2 := by
  cases hf : c.find? (fun p => p.1 == host) with
  | some p =>
    have hpe : p.1 = host := by
      have h1 := List.find?_some hf
      simpa using h1
    have hpm := List.mem_of_find?_eq_some hf
    have hgood := hwf p hpm
    have e1 : get_signed_cert (mk_ca_cert ke se) host k s c
        = (p.2, (host, p.2) :: c.filter (fun q => q.1 != host)) := by
      simp [get_signed_cert, get_cached_cert, cache_get, hf]
    rw [e1]
    constructor
    · simpa [hpe] using hgood
    · intro q hq
      rcases List.mem_cons.mp hq with hq | hq
      · subst hq
        simpa [hpe] using hgood
      · exact hwf q (List.mem_of_mem_filter hq)
  | none =>
    have e1 : get_signed_cert (mk_ca_cert ke se) host k s c
        = (sign_ca_cert (mk_ca_cert ke se) host k s,
           cache_set host (sign_ca_cert (mk_ca_cert ke se) host k s) c) := by
      simp [get_signed_cert, get_cached_cert, cache_get, hf]
    rw [e1]
    constructor
    · exact GoodLeaf_sign ke se k s host
    · intro q hq
      rw [cache_set] at hq
      by_cases ha : c.any (fun p => p.1 == host) = true
      · rw [if_pos ha] at hq
        rcases List.mem_cons.mp hq with hq | hq
        · subst hq
          exact GoodLeaf_sign ke se k s host
        · exact hwf q (List.mem_of_mem_filter hq)
      · rw [if_neg ha] at hq
        by_cases hl : c.length < cacheCapacity
        · rw [if_pos hl] at hq
          rcases List.mem_cons.mp hq with hq | hq
          · subst hq
            exact GoodLeaf_sign ke se k s host
          · exact hwf q hq
        · rw [if_neg hl] at hq
          rcases List.mem_cons.mp hq with hq | hq
          · subst hq
            exact GoodLeaf_sign ke se k s host
          · exact hwf q (List.dropLast_subset c hq)

/-- C1 witness: minting for `example.com` from the empty cache. -/
theorem C1_get_signed_cert_witness :
    GoodLeaf (mk_ca_cert 0 0) "example.com"
      (get_signed_cert (mk_ca_cert 0 0) "example.com" 1 2 []).1 :=
  (C1_get_signed_cert 0 0 1 2 "example.com" []
    (fun p hp => absurd hp (List.not_mem_nil p))).1

/-! ## Codec lemmas -/

theorem splitLine_append (l r : Buf) (h : ∀ c ∈ l, c ≠ '\r') :
    splitLine (l ++ '\r' :: '\n' :: r) = some (l, r) := by
  induction l with
  | nil => rfl
  | cons c t ih =>
    have hc : ¬ (c = '\r' ∧ (t ++ '\r' :: '\n' :: r).head? = some '\n') :=
      fun hand => h c (by simp) hand.1
    rw [List.cons_append, splitLine, if_neg hc, ih (fun x hx => h x (by simp [hx]))]
    rfl

theorem splitAtChar_append (sep : Char) (l r : Buf) (h : ∀ c ∈ l, c ≠ sep) :
    splitAtChar sep (l ++ sep :: r) = some (l, r) := by
  induction l with
  | nil => simp [splitAtChar]
  | cons c t ih =>
    have hc : ¬ c = sep := h c (by simp)
    rw [List.cons_append, splitAtChar, if_neg hc, ih (fun x hx => h x (by simp [hx]))]
    rfl

theorem dropWhile_of_headNotWS (l : Buf) (h : headNotWS l = true) :
    l.dropWhile isWSChar = l := by
  cases l with
  | nil => rfl
  | cons c t =>
    have hc : isWSChar c = false := by
      simp only [headNotWS, Bool.not_eq_eq_eq_not, Bool.not_true] at h
      exact h
    simp [List.dropWhile_cons, hc]

theorem trimTrailingWS_of_canonical (l : Buf) (h : headNotWS l.reverse = true) :
    trimTrailingWS l = l := by
  rw [trimTrailingWS, dropWhile_of_headNotWS _ h, List.reverse_reverse]

theorem tokenChar_ne (c : Char) (h : tokenChar c = true) :
    c ≠ ' ' ∧ c ≠ ':' ∧ c ≠ '\r' ∧ c ≠ '\n' := by
  refine ⟨?_, ?_, ?_, ?_⟩ <;> (intro he; subst he; exact absurd h (by decide))

theorem visibleChar_ne (c : Char) (h : visibleChar c = true) :
    c ≠ ' ' ∧ c ≠ '\r' ∧ c ≠ '\n' := by
  refine ⟨?_, ?_, ?_⟩ <;> (intro he; subst he; exact absurd h (by decide))

theorem valueChar_ne (c : Char) (h : valueChar c = true) :
    c ≠ '\r' ∧ c ≠ '\n' := by
  refine ⟨?_, ?_⟩ <;> (intro he; subst he; exact absurd h (by decide))

theorem map_toLower_id (l : Buf) (h : l.all (fun c => c.toLower == c) = true) :
    l.map Char.toLower = l := by
  induction l with
  | nil => rfl
  | cons c t ih =>
    simp only [List.all_cons, Bool.and_eq_true, beq_iff_eq] at h
    simp [h.1, ih (by simpa using h.2)]

theorem headers_lower_id (hs : List (String × String))
    (h : hs.all canonicalHeader = true) :
    hs.map (fun p => (lowerStr p.1, p.2)) = hs := by
  induction hs with
  | nil => rfl
  | cons p t ih =>
    simp only [List.all_cons, Bool.and_eq_true] at h
    have hlow : p.1.data.all (fun c => c.toLower == c) = true := by
      have hc := h.1
      simp only [canonicalHeader, Bool.and_eq_true] at hc
      exact hc.1.1.1.2
    have h1 : lowerStr p.1 = p.1 := by
      rw [lowerStr, map_toLower_id _ hlow, strMk_data]
    simp [h1, ih h.2]

theorem emitHeader_eq (p : String × String) :
    emitHeader p = (p.1.data ++ (':' :: (' ' :: p.2.data))) ++ ('\r' :: ('\n' :: [])) := by
  simp [emitHeader]

theorem emitHeaders_length_ge (hs : List (String × String)) :
    hs.length ≤ (emitHeaders hs).length := by
  induction hs with
  | nil => simp [emitHeaders]
  | cons p t ih =>
    rw [emitHeaders]
    simp only [List.length_cons, List.length_append]
    have : 1 ≤ (emitHeader p).length := by
      simp [emitHeader]
      omega
    omega

theorem canonicalHeader_line_noCR (p : String × String)
    (h : canonicalHeader p = true) :
    ∀ c ∈ p.1.data ++ (':' :: (' ' :: p.2.data)), c ≠ '\r' := by
  simp only [canonicalHeader, Bool.and_eq_true] at h
  intro c hc
  rcases List.mem_append.mp hc with hc | hc
  · have htok : tokenChar c = true := by
      have := h.1.1.1.1
      simp only [isToken, Bool.and_eq_true, List.all_eq_true] at this
      exact this.2 c hc
    exact (tokenChar_ne c htok).2.2.1
  · rcases List.mem_cons.mp hc with hc | hc
    · subst hc; decide
    · rcases List.mem_cons.mp hc with hc | hc
      · subst hc; decide
      · have hv : valueChar c = true := by
          have hall := h.1.1.2
          simp only [List.all_eq_true] at hall
          exact hall c hc
        exact (valueChar_ne c hv).1

theorem parseHeaderLines_emit (hs : List (String × String)) :
    ∀ (fuel : Nat) (tail : Buf), hs.length < fuel →
      hs.all canonicalHeader = true →
      parseHeaderLines fuel (emitHeaders hs ++ '\r' :: '\n' :: tail)
        = some (hs, tail) := by
  induction hs with
  | nil =>
    intro fuel tail hf _
    cases fuel with
    | zero => omega
    | succ f => rfl
  | cons p t ih =>
    intro fuel tail hf hall
    cases fuel with
    | zero => simp at hf
    | succ f =>
      simp only [List.all_cons, Bool.and_eq_true] at hall
      have hcp := hall.1
      have hshape : emitHeaders (p :: t) ++ '\r' :: '\n' :: tail
          = (p.1.data ++ (':' :: (' ' :: p.2.data)))
              ++ '\r' :: '\n' :: (emitHeaders t ++ '\r' :: '\n' :: tail) := by
        rw [emitHeaders, emitHeader_eq]
        simp [List.append_assoc]
      have hne : (p.1.data ++ (':' :: (' ' :: p.2.data))).isEmpty = false := by
        cases hd : p.1.data <;> simp [hd]
      have hnocolon : ∀ c ∈ p.1.data, c ≠ ':' := by
        intro c hc
        have htok : tokenChar c = true := by
          have h1 := hcp
          simp only [canonicalHeader, isToken, Bool.and_eq_true, List.all_eq_true] at h1
          exact h1.1.1.1.1.2 c hc
        exact (tokenChar_ne c htok).2.1
      have htokname : isToken p.1.data = true := by
        have h1 := hcp
        simp only [canonicalHeader, Bool.and_eq_true] at h1
        exact h1.1.1.1.1
      have hh1 : headNotWS p.2.data = true := by
        have h1 := hcp
        simp only [canonicalHeader, Bool.and_eq_true] at h1
        exact h1.1.2
      have hh2 : headNotWS p.2.data.reverse = true := by
        have h1 := hcp
        simp only [canonicalHeader, Bool.and_eq_true] at h1
        exact h1.2
      have hval : (' ' :: p.2.data).dropWhile isWSChar = p.2.data := by
        rw [List.dropWhile_cons, if_pos (by decide)]
        exact dropWhile_of_headNotWS _ hh1
      have hrec := ih f tail (by simpa using Nat.lt_of_succ_lt_succ hf) hall.2
      rw [hshape, parseHeaderLines,
        splitLine_append _ _ (canonicalHeader_line_noCR p hcp)]
      simp only [Option.bind]
      rw [hne, if_neg Bool.false_ne_true, parseHeaderLine,
        splitAtChar_append _ _ _ hnocolon]
      simp only [Option.bind]
      rw [if_pos htokname, hval, trimTrailingWS_of_canonical _ hh2, hrec]
      simp [strMk_data]

theorem pathOf_canonical (u : String) (h1 : startsSlash u.data = true)
    (h2 : u.data.all (fun c => visibleChar c && c != '?' && c != '#') = true) :
    pathOf u = u := by
  rw [pathOf, if_pos h1]
  have htw : u.data.takeWhile (fun c => c != '?' && c != '#') = u.data := by
    refine List.takeWhile_eq_self_iff.mpr (fun c hcm => ?_)
    simp only [List.all_eq_true, Bool.and_eq_true] at h2
    simp only [Bool.and_eq_true]
    exact ⟨(h2 c hcm).1.2, (h2 c hcm).2⟩
  rw [htw, strMk_data]

theorem uri_nonempty (u : String) (h1 : startsSlash u.data = true) :
    u.data.isEmpty = false := by
  cases hu : u.data with
  | nil => rw [hu] at h1; exact absurd h1 (by decide)
  | cons c t => simp

theorem requestLine_noCR (m u : String)
    (htokm : isToken m.data = true)
    (hualt : u.data.all (fun c => visibleChar c && c != '?' && c != '#') = true) :
    ∀ c ∈ m.data ++ (' ' :: (u.data ++ (' ' :: "HTTP/1.1".data))), c ≠ '\r' := by
  have hver : ∀ c ∈ ("HTTP/1.1".data : Buf), c ≠ '\r' := by decide
  intro c hcm
  rcases List.mem_append.mp hcm with hcm | hcm
  · have htc : tokenChar c = true := by
      simp only [isToken, Bool.and_eq_true, List.all_eq_true] at htokm
      exact htokm.2 c hcm
    exact (tokenChar_ne c htc).2.2.1
  · rcases List.mem_cons.mp hcm with hcm | hcm
    · subst hcm; decide
    · rcases List.mem_append.mp hcm with hcm | hcm
      · have hvc : visibleChar c = true := by
          simp only [List.all_eq_true, Bool.and_eq_true] at hualt
          exact (hualt c hcm).1.1
        exact (visibleChar_ne c hvc).2.1
      · rcases List.mem_cons.mp hcm with hcm | hcm
        · subst hcm; decide
        · exact hver c hcm

theorem parseRequestLine_canonical (m u : String)
    (htokm : isToken m.data = true) (hslash : startsSlash u.data = true)
    (hualt : u.data.all (fun c => visibleChar c && c != '?' && c != '#') = true) :
    parseRequestLine (m.data ++ (' ' :: (u.data ++ (' ' :: "HTTP/1.1".data))))
      = some (m, u) := by
  have hm_nospace : ∀ c ∈ m.data, c ≠ ' ' := by
    intro c hcm
    have htc : tokenChar c = true := by
      simp only [isToken, Bool.and_eq_true, List.all_eq_true] at htokm
      exact htokm.2 c hcm
    exact (tokenChar_ne c htc).1
  have hu_nospace : ∀ c ∈ u.data, c ≠ ' ' := by
    intro c hcm
    have hvc : visibleChar c = true := by
      simp only [List.all_eq_true, Bool.and_eq_true] at hualt
      exact (hualt c hcm).1.1
    exact (visibleChar_ne c hvc).1
  have hcond : (isToken m.data && !u.data.isEmpty
      && (("HTTP/1.1".data : Buf) == "HTTP/1.1".data
          || ("HTTP/1.1".data : Buf) == "HTTP/1.0".data)) = true := by
    rw [htokm, uri_nonempty u hslash]
    simp
  rw [parseRequestLine, splitAtChar_append _ _ _ hm_nospace]
  simp only [Option.bind]
  rw [splitAtChar_append _ _ _ hu_nospace]
  simp only [Option.bind]
  rw [if_pos hcond, strMk_data, strMk_data]

theorem parseHead_decode (m u : String) (hs : List (String × String)) (tail : Buf)
    (htokm : isToken m.data = true) (hslash : startsSlash u.data = true)
    (hualt : u.data.all (fun c => visibleChar c && c != '?' && c != '#') = true)
    (hallhdr : hs.all canonicalHeader = true) :
    parseHead ((m.data ++ (' ' :: (u.data ++ (' ' :: "HTTP/1.1".data))))
        ++ ('\r' :: ('\n' :: (emitHeaders hs ++ ('\r' :: ('\n' :: tail))))))
      = some (m, u, hs, tail) := by
  have hfuel : hs.length
      < ((m.data ++ (' ' :: (u.data ++ (' ' :: "HTTP/1.1".data))))
          ++ ('\r' :: ('\n' :: (emitHeaders hs ++ ('\r' :: ('\n' :: tail)))))).length + 1 := by
    have h1 := emitHeaders_length_ge hs
    simp only [List.length_append, List.length_cons]
    omega
  rw [parseHead, splitLine_append _ _ (requestLine_noCR m u htokm hualt)]
  simp only [Option.bind]
  rw [parseRequestLine_canonical m u htokm hslash hualt]
  simp only [Option.bind]
  rw [parseHeaderLines_emit hs _ tail hfuel hallhdr]
  rfl

theorem decode_shape (m u : String) (hs : List (String × String)) (body : Buf)
    (hpath : pathOf u = u) :
    decode ⟨m, u, hs, body⟩
      = (m.data ++ (' ' :: (u.data ++ (' ' :: "HTTP/1.1".data))))
          ++ ('\r' :: ('\n' :: (emitHeaders hs ++ ('\r' :: ('\n' :: body))))) := by
  show m.data ++ " ".data ++ (pathOf u).data ++ " HTTP/1.1\r\n".data
      ++ emitHeaders hs ++ "\r\n".data ++ body = _
  rw [hpath]
  have e1 : (" ".data : Buf) = [' '] := rfl
  have e2 : (" HTTP/1.1\r\n".data : Buf) = ' ' :: ("HTTP/1.1".data ++ ['\r', '\n']) := rfl
  have e3 : ("\r\n".data : Buf) = ['\r', '\n'] := rfl
  rw [e1, e2, e3]
  simp [List.append_assoc]

/-- C3 amended: the encode/decode pair round-trips byte-exactly on every
request in canonical serialized form — origin-form target without query
or fragment, `HTTP/1.1`, lowercase token header names separated from
their values by a single `": "`, values without surrounding whitespace,
and exactly `Content-Length` body bytes.  (Outside this form the
round-trip fails: hyper lowercases header names, `decode` prints only
`uri().path()`, and literal `HTTP/1.1` with single spaces is emitted.) -/
theorem C3_roundtrip (r : HttpRequest) (hc : isCanonical r = true) :
    encode (decode r) = some (r, []) := by
  obtain ⟨m, u, hs, body⟩ := r
  simp only [isCanonical, isHeadCanonical, Bool.and_eq_true] at hc
  obtain ⟨⟨⟨⟨⟨htokm, hslash⟩, hualt⟩, hallhdr⟩, hclbeq⟩, _⟩ := hc
  have hcl : contentLenOf hs = body.length := by simpa using hclbeq
  have hpath : pathOf u = u := pathOf_canonical u hslash hualt
  rw [decode_shape m u hs body hpath, encode,
    parseHead_decode m u hs body htokm hslash hualt hallhdr]
  simp only [Option.bind]
  rw [headers_lower_id hs hallhdr]
  have hclfold : (match findContentLength hs with
      | some v => (atoiChars v.data).getD 0
      | none => 0) = contentLenOf hs := rfl
  rw [hclfold, hcl]
  by_cases hb : body.length = 0
  · rw [if_pos hb]
    have hbe : body = [] := List.length_eq_zero.mp hb
    subst hbe
    rfl
  · rw [if_neg hb, if_pos (Nat.le_refl body.length)]
    rw [List.take_length, List.drop_length]

/-- C3 witness: a concrete canonical request round-trips. -/
theorem C3_roundtrip_witness :
    isCanonical ⟨"POST", "/p", [("host", "a"), ("content-length", "2")], "hi".data⟩ = true
    ∧ encode (decode ⟨"POST", "/p", [("host", "a"), ("content-length", "2")], "hi".data⟩)
        = some (⟨"POST", "/p", [("host", "a"), ("content-length", "2")], "hi".data⟩, []) :=
  ⟨by decide, C3_roundtrip _ (by decide)⟩

/-- C3 counterexample: the well-formed request `GET / HTTP/1.1` with
header `Host: a` encodes successfully, but decoding returns the header
name lowercased — the round-trip is not byte-equal. -/
theorem C3_counterexample :
    encode ("GET / HTTP/1.1\r\nHost: a\r\n\r\n".data)
        = some (⟨"GET", "/", [("host", "a")], []⟩, [])
    ∧ decode ⟨"GET", "/", [("host", "a")], []⟩
        ≠ "GET / HTTP/1.1\r\nHost: a\r\n\r\n".data := by
  constructor
  · decide
  · decide

/-- C10 counterexample: a `Content-Length` value of `1x` is not a
parseable non-negative integer, yet `encode` does not treat it as 0:
`atoi` reads the digit run `1`, one body byte is consumed into the
request body, and nothing is left in the buffer. -/
theorem C10_counterexample :
    encode ("POST / HTTP/1.1\r\ncontent-length: 1x\r\n\r\nA".data)
        = some (⟨"POST", "/", [("content-length", "1x")], ['A']⟩, [])
    ∧ (['A'] : Buf) ≠ [] := by
  constructor
  · decide
  · decide

/-- C10 amended: when the `Content-Length` value does not start with an
ASCII digit (so `atoi` fails and `unwrap_or(0)` applies), `encode` treats
the length as 0: it drains exactly the head bytes and returns the request
with an empty body, leaving any following bytes in the buffer.  When the
value starts with a digit, `atoi` instead reads the leading digit run. -/
theorem C10_content_length_no_digit (m u : String) (hs : List (String × String))
    (junk : Buf) (v : String)
    (htokm : isToken m.data = true) (hslash : startsSlash u.data = true)
    (hualt : u.data.all (fun c => visibleChar c && c != '?' && c != '#') = true)
    (hallhdr : hs.all canonicalHeader = true)
    (hfind : findContentLength hs = some v)
    (hatoi : atoiChars v.data = none) :
    encode (decode ⟨m, u, hs, []⟩ ++ junk) = some (⟨m, u, hs, []⟩, junk) := by
  have hpath : pathOf u = u := pathOf_canonical u hslash hualt
  have hshape : decode ⟨m, u, hs, []⟩ ++ junk
      = (m.data ++ (' ' :: (u.data ++ (' ' :: "HTTP/1.1".data))))
          ++ ('\r' :: ('\n' :: (emitHeaders hs ++ ('\r' :: ('\n' :: junk))))) := by
    rw [decode_shape m u hs [] hpath]
    simp [List.append_assoc]
  rw [hshape, encode, parseHead_decode m u hs junk htokm hslash hualt hallhdr]
  simp only [Option.bind]
  rw [headers_lower_id hs hallhdr]
  have hclfold : (match findContentLength hs with
      | some v => (atoiChars v.data).getD 0
      | none => 0) = contentLenOf hs := rfl
  have hcl0 : contentLenOf hs = 0 := by
    rw [contentLenOf, hfind]
    simp [hatoi]
  rw [hclfold, hcl0, if_pos rfl]

/-- C10 witness for the amended claim: a head with `content-length: abc`
followed by a stray byte `X` encodes to an empty-body request with `X`
left in the buffer. -/
theorem C10_content_length_no_digit_witness :
    encode (decode ⟨"GET", "/", [("content-length", "abc")], []⟩ ++ ['X'])
      = some (⟨"GET", "/", [("content-length", "abc")], []⟩, ['X']) :=
  C10_content_length_no_digit "GET" "/" [("content-length", "abc")] ['X'] "abc"
    (by decide) (by decide) (by decide) (by decide) (by decide) (by decide)
